import Mathlib

/-!
Shallow embedding of the Bill-Checker validation engine
(`src/validator.py`, class `BillValidator`).

Tabular data read by pandas is modelled as follows:
* a cell is `Option Val` where `none` stands for pandas NaN (a missing
  value) and `Val` is either a string cell or a numeric cell (columns that
  pandas parsed as numbers, and the `Cost` column after
  `pd.to_numeric(..., errors="coerce")`);
* a row is an association list from column name to cell;
* a table is a header (list of column names) plus a list of rows;
* `pandas` row indices of a sub-DataFrame obtained by filtering keep the
  original positions, so an invoice group is a list of
  (original zero-based index, row) pairs.

Rationals (`Rat`) stand in for Python floats: every literal arising in the
checks is an exact decimal, so no rounding behaviour is lost.
-/

namespace BillChecker

/-- A non-missing cell value: either a string or a number. -/
inductive Val where
  | vstr (s : String)
  | vnum (q : Rat)
deriving DecidableEq

/-- A cell: `none` models pandas NaN. -/
abbrev Cell := Option Val

/-- Python `str.strip()`: drop leading and trailing whitespace.
(Implemented over the character list so that it is structurally
recursive.) -/
def pyStrip (s : String) : String :=
  ⟨((s.toList.dropWhile Char.isWhitespace).reverse.dropWhile Char.isWhitespace).reverse⟩

/-- Python `str.lower()` on the characters of a string. -/
def pyLower (s : String) : String :=
  ⟨s.toList.map Char.toLower⟩

/-- Lexicographic (code-point) comparison of character lists: Python
string `<`. -/
def charListLt : List Char → List Char → Bool
  | [], [] => false
  | [], _ :: _ => true
  | _ :: _, [] => false
  | a :: as, b :: bs => if a < b then true else if b < a then false else charListLt as bs

/-- Python string `<`. -/
def strLt (s t : String) : Bool :=
  charListLt s.toList t.toList

/-- Decimal digits of a natural number, most significant first (the
first argument is fuel, always at least the number itself). -/
def natDigitsAux : Nat → Nat → List Char
  | 0, _ => []
  | fuel + 1, n =>
      if n == 0 then []
      else natDigitsAux fuel (n / 10) ++ [Char.ofNat (48 + n % 10)]

/-- Decimal rendering of a natural number. -/
def natToChars (n : Nat) : List Char :=
  if n == 0 then ['0'] else natDigitsAux n n

/-- Decimal rendering of an integer. -/
def intToChars : Int → List Char
  | .ofNat n => natToChars n
  | .negSucc n => '-' :: natToChars (n + 1)

/-- Python `str()` applied to a cell value. For numeric cells the exact
text is a stand-in for the float repr; no check in the source depends on
its precise form, only on it being a non-empty non-marker string. -/
def Val.pyStr : Val → String
  | .vstr s => s
  | .vnum q =>
      ⟨(if q.den == 1 then intToChars q.num
        else intToChars q.num ++ '/' :: natToChars q.den) ++ ['.', '0']⟩

/-- pandas `astype(str)` applied to a cell: NaN becomes the string "nan". -/
def Cell.pyStr : Cell → String
  | none => "nan"
  | some v => v.pyStr

/-- `pd.isna` on a cell. -/
def Cell.isna : Cell → Bool
  | none => true
  | some _ => false

/-- The emptiness test used throughout the source:
`pd.isna(val) or str(val).strip() == ""`. -/
def Cell.blank : Cell → Bool
  | none => true
  | some v => pyStrip v.pyStr == ""

/-- Numeric value of the digit list `ds` (most significant first). -/
def digitsVal (ds : List Char) : Nat :=
  ds.foldl (fun a c => a * 10 + (c.toNat - 48)) 0

/-- Parse an unsigned decimal mantissa: digits, optionally with a dot and
fractional digits; at least one digit overall. -/
def parseUnsigned (cs : List Char) : Option Rat :=
  let intPart := cs.takeWhile Char.isDigit
  let rest := cs.dropWhile Char.isDigit
  match rest with
  | [] => if intPart.isEmpty then none else some (digitsVal intPart : Rat)
  | '.' :: frac =>
      if frac.all Char.isDigit && !(intPart.isEmpty && frac.isEmpty) then
        some ((digitsVal intPart : Rat) + (digitsVal frac : Rat) / (10 : Rat) ^ frac.length)
      else none
  | _ => none

/-- Parse an exponent part: optional sign, then at least one digit. -/
def parseExp (cs : List Char) : Option Int :=
  match cs with
  | [] => none
  | '+' :: ds =>
      if ds.isEmpty || !ds.all Char.isDigit then none else some (digitsVal ds : Int)
  | '-' :: ds =>
      if ds.isEmpty || !ds.all Char.isDigit then none else some (-(digitsVal ds : Int))
  | ds => if ds.all Char.isDigit then some (digitsVal ds : Int) else none

/-- Split a character list at the first `e`/`E`, if any. -/
def splitAtExp : List Char → List Char × Option (List Char)
  | [] => ([], none)
  | c :: rest =>
      if c == 'e' || c == 'E' then ([], some rest)
      else
        let r := splitAtExp rest
        (c :: r.1, r.2)

/-- Python `float(s)` on a string, modelled for finite decimal literals
(optional sign, digits, optional fraction, optional exponent, surrounding
whitespace stripped). The special words nan/inf/infinity are not modelled:
no claim or input in this development uses them. `none` models the
`ValueError` raised on a non-parseable string. -/
def parseFloat (s : String) : Option Rat :=
  let cs := (pyStrip s).toList
  let (sign, cs2) : Rat × List Char :=
    match cs with
    | '+' :: r => (1, r)
    | '-' :: r => (-1, r)
    | r => (1, r)
  let (mant, expPart) := splitAtExp cs2
  match parseUnsigned mant with
  | none => none
  | some m =>
      match expPart with
      | none => some (sign * m)
      | some ecs =>
          match parseExp ecs with
          | none => none
          | some e => some (sign * m * (10 : Rat) ^ e)

/-- Python `float(x)` on a cell value that may already be numeric. -/
def Val.toFloat : Val → Option Rat
  | .vnum q => some q
  | .vstr s => parseFloat s

/-- Python `float(x)` on a cell; `none` if the cell is NaN. -/
def Cell.toFloat : Cell → Option Rat
  | none => none
  | some v => v.toFloat

/-- `pd.to_numeric(x, errors="coerce")` on one cell: numbers pass through,
parseable strings become numbers, everything else becomes NaN. -/
def coerceCell (c : Cell) : Cell :=
  match c with
  | none => none
  | some v =>
      match v.toFloat with
      | some q => some (.vnum q)
      | none => none

/-- One bill row: association list column name → cell. -/
structure Row where
  cells : List (String × Cell)
deriving DecidableEq

/-- Column access `row[col]`. A key absent from the association list
behaves as NaN; in well-formed tables every row carries every column. -/
def Row.get (r : Row) (c : String) : Cell :=
  (r.cells.lookup c).getD none

/-- A pandas DataFrame: header plus rows. -/
structure Table where
  cols : List String
  rows : List Row
deriving DecidableEq

/-- An invoice group: rows paired with their original zero-based position
in the full table (pandas keeps original indices when filtering). -/
abbrev Group := List (Nat × Row)

/-- First-seen-order deduplication, accumulator of already seen elements:
models `pandas.Series.unique` and Python set insertion keyed by first
occurrence. -/
def dedupFSAux {α : Type} [BEq α] (seen : List α) : List α → List α
  | [] => []
  | x :: xs =>
      if seen.contains x then dedupFSAux seen xs
      else x :: dedupFSAux (x :: seen) xs

/-- First-seen-order deduplication. -/
def dedupFS {α : Type} [BEq α] (l : List α) : List α :=
  dedupFSAux [] l

/-- Insert a string into a sorted duplicate-free list, keeping it sorted
and duplicate-free. -/
def insertDedupStr (x : String) : List String → List String
  | [] => [x]
  | y :: ys =>
      if x == y then y :: ys
      else if strLt x y then x :: y :: ys
      else y :: insertDedupStr x ys

/-- Python `sorted(set(l))` for a list of strings. -/
def sortDedupStr (l : List String) : List String :=
  l.foldr insertDedupStr []

/-- `_check_columns_present`: required columns missing from the header. -/
def missingColumns (requiredCols tableCols : List String) : List String :=
  requiredCols.filter (fun c => !(tableCols.contains c))

/-- The designated numeric columns of `_check_numeric_values`. -/
def numericCols : List String := ["Cost", "Rate per unit", "Quantity"]

/-- Per-column body of `_check_numeric_values`: `none` when the column
produces no violation entry, otherwise the 1-based spreadsheet row numbers
(zero-based index + 2) of the non-empty cells on which `float(val)`
raises. -/
def numericEntry (cols : List String) (g : Group) (col : String) : Option (List Nat) :=
  if cols.contains col then
    let bad := g.filterMap (fun p =>
      let v := p.2.get col
      if v.blank then none
      else if (v.toFloat).isSome then none
      else some (p.1 + 2))
    if bad.isEmpty then none else some bad
  else none

/-- `_check_numeric_values` on one invoice group. -/
def checkNumericValues (cols : List String) (g : Group) :
    Bool × List (String × List Nat) :=
  let viols := numericCols.filterMap (fun c => (numericEntry cols g c).map (fun b => (c, b)))
  (viols.isEmpty, viols)

/-- Per-column body of `_check_no_missing_values`: skipped when the column
is absent or its allowed set contains the token "blank"; otherwise the
1-based row numbers of the cells that are NaN or empty after stripping. -/
def missingEntry (allowed : List (String × List String)) (cols : List String)
    (g : Group) (col : String) : Option (List Nat) :=
  if cols.contains col then
    if ((allowed.lookup col).getD []).contains "blank" then none
    else
      let bad := g.filterMap (fun p => if (p.2.get col).blank then some (p.1 + 2) else none)
      if bad.isEmpty then none else some bad
  else none

/-- `_check_no_missing_values` on one invoice group. -/
def checkNoMissing (requiredCols : List String) (allowed : List (String × List String))
    (cols : List String) (g : Group) : Bool × List (String × List Nat) :=
  let miss := requiredCols.filterMap (fun c => (missingEntry allowed cols g c).map (fun b => (c, b)))
  (miss.isEmpty, miss)

/-- Per-column body of `_check_allowed_values`: skipped when the column is
absent, its set contains "any", or its set is empty; otherwise the sorted
distinct non-empty trimmed values outside the allowed set. -/
def allowedEntry (cols : List String) (g : Group) (col : String)
    (aset : List String) : Option (List String) :=
  if cols.contains col then
    if aset.contains "any" then none
    else if aset.isEmpty then none
    else
      let bad := g.filterMap (fun p =>
        let v := p.2.get col
        if v.blank then none
        else
          let s := pyStrip v.pyStr
          if aset.contains s then none else some s)
      if bad.isEmpty then none else some (sortDedupStr bad)
  else none

/-- `_check_allowed_values` on one invoice group. -/
def checkAllowedValues (allowed : List (String × List String)) (cols : List String)
    (g : Group) : Bool × List (String × List String) :=
  let viols := allowed.filterMap (fun pr => (allowedEntry cols g pr.1 pr.2).map (fun b => (pr.1, b)))
  (viols.isEmpty, viols)

/-- The epsilon of the numeric comparison in `_check_coordination`. -/
def matchEps : Rat := 1 / 1000000000

/-- `match_func` of `_check_coordination`: a NaN cell never matches;
`float(x)` and `float(val)` are attempted and, when both succeed, the
values are compared within `1e-9`; if either raises, the comparison falls
back to `str(x).strip() == val`. -/
def matchPair (x : Cell) (val : String) : Bool :=
  match x with
  | none => false
  | some v =>
      match v.toFloat, parseFloat val with
      | some a, some b => decide (|a - b| < matchEps)
      | some _, none => pyStrip v.pyStr == val
      | none, _ => pyStrip v.pyStr == val

/-- An exclusion condition whose columns are not all present in the bill
is skipped (`continue` in the source). -/
def condApplies (cols : List String) (cond : List (String × String)) : Bool :=
  cond.all (fun p => cols.contains p.1)

/-- The exclusion mask of `_check_coordination`: a row is excluded iff it
matches every pair of some applicable condition. -/
def isExcluded (cols : List String) (conds : List (List (String × String)))
    (r : Row) : Bool :=
  conds.any (fun cond => condApplies cols cond && cond.all (fun p => matchPair (r.get p.1) p.2))

/-- Coordination rows: `Work code` equals "C" after `astype(str).strip()`. -/
def isCoordRow (r : Row) : Bool :=
  pyStrip (r.get "Work code").pyStr == "C"

/-- Contribution of one Cost cell to a pandas `.sum()`: NaN is skipped.
In the pipeline the Cost column has been coerced to numeric, so every
cell here is `none` or `vnum`; a stray string cell contributes 0, the
same as NaN. -/
def cellNum (c : Cell) : Rat :=
  match c with
  | some (.vnum q) => q
  | _ => 0

/-- `bill_df["Cost"].sum()` over a set of rows. -/
def costSum (g : Group) : Rat :=
  (g.map (fun p => cellNum (p.2.get "Cost"))).sum

/-- The detail payload of `_check_coordination`. -/
structure CoordDetails where
  has_coordination : Bool
  base_amount : Rat
  expected : Rat
  actual_coord : Rat
  diff : Rat
  excluded_items : List (Cell × Cell × Cell)
deriving DecidableEq

/-- `_check_coordination` on one invoice group, given the table header,
the exclusion conditions, the coordination percentage and the tolerance. -/
def checkCoordination (cols : List String) (conds : List (List (String × String)))
    (pct tol : Rat) (g : Group) : Bool × CoordDetails :=
  let coordRows := g.filter (fun p => isCoordRow p.2)
  if coordRows.isEmpty then
    (true, { has_coordination := false, base_amount := 0, expected := 0,
             actual_coord := 0, diff := 0, excluded_items := [] })
  else
    let actual := costSum coordRows
    let baseRows := g.filter (fun p => !(isExcluded cols conds p.2) && !(isCoordRow p.2))
    let baseSum := costSum baseRows
    let excludedRows := g.filter (fun p => isExcluded cols conds p.2 && !(isCoordRow p.2))
    let items := excludedRows.map (fun p =>
      (p.2.get "Item", p.2.get "Work code", p.2.get "Cost"))
    let expected := baseSum * (pct / 100)
    let diff := |expected - actual|
    (decide (diff ≤ tol),
     { has_coordination := true, base_amount := baseSum, expected := expected,
       actual_coord := actual, diff := diff, excluded_items := items })

/-- The detail payload of `_check_work_code_name_pairs`. -/
structure WPDetails where
  missing_columns : List String
  missing_code : List Nat
  missing_name : List Nat
  invalid_pairs : List (String × List Nat)
deriving DecidableEq

/-- `_check_work_code_name_pairs` on one invoice group. The defaultdict
keyed by "code|name" is modelled by keys in first-occurrence order, each
carrying its full row-number list. -/
def checkWorkPairs (validPairs : List (String × String)) (cols : List String)
    (g : Group) : Bool × WPDetails :=
  if !(cols.contains "Work code") || !(cols.contains "Work") then
    let mc := (if cols.contains "Work code" then [] else ["Work code"]) ++
              (if cols.contains "Work" then [] else ["Work"])
    (false, { missing_columns := mc, missing_code := [], missing_name := [],
              invalid_pairs := [] })
  else
    let missC := g.filterMap (fun p =>
      if (p.2.get "Work code").blank then some (p.1 + 2) else none)
    let missN := g.filterMap (fun p =>
      if !(p.2.get "Work code").blank && (p.2.get "Work").blank then some (p.1 + 2) else none)
    let invRows := g.filterMap (fun p =>
      let c := p.2.get "Work code"
      let n := p.2.get "Work"
      if c.blank || n.blank then none
      else if validPairs.isEmpty then none
      else
        let cs := pyStrip c.pyStr
        let ns := pyStrip n.pyStr
        if validPairs.contains (cs, ns) then none
        else some (cs ++ "|" ++ ns, p.1 + 2))
    let keys := dedupFS (invRows.map (fun q => q.1))
    let inv := keys.map (fun k => (k, invRows.filterMap (fun q => if q.1 == k then some q.2 else none)))
    let passed :=
      if validPairs.isEmpty then missC.isEmpty && missN.isEmpty
      else missC.isEmpty && missN.isEmpty && inv.isEmpty
    (passed, { missing_columns := [], missing_code := missC, missing_name := missN,
               invalid_pairs := inv })

/-!
### Reference loaders

File-system inputs are modelled as `Option (Option Table)`:
`none` — the path is unset or the file does not exist;
`some none` — the file exists but `pd.read_csv` raises (this includes an
entirely empty file, on which pandas raises `EmptyDataError`);
`some (some t)` — the file parses into the table `t`.
-/

/-- A source file as seen by the loaders. -/
abbrev Source := Option (Option Table)

/-- The typed fatal errors raised by the loaders and the orchestrator. -/
inductive LoadError where
  | fileNotFound (msg : String)
  | valueError (msg : String)
deriving DecidableEq

/-- Rule extraction of `load_exclude_patterns`: each row contributes the
condition formed by its non-NaN, non-blank cells (trimmed), taken in
header order; rows yielding an empty condition are dropped. -/
def parseConds (t : Table) : List (List (String × String)) :=
  t.rows.filterMap (fun r =>
    let cond := t.cols.filterMap (fun c =>
      let v := r.get c
      if v.isna || pyStrip v.pyStr == "" then none
      else some (c, pyStrip v.pyStr))
    if cond.isEmpty then none else some cond)

/-- `load_exclude_patterns`: an absent file leaves the empty condition
list; a file that cannot be read degrades to the empty list with a
printed warning (returned here as the second component). -/
def loadExcludePatterns : Source → List (List (String × String)) × List String
  | none => ([], [])
  | some none => ([], ["Warning: Could not load exclude patterns"])
  | some (some t) => (parseConds t, [])

/-- Allowed-set construction of `load_allowed_values`: for each header
column, the distinct non-empty trimmed values beneath it. -/
def buildAllowed (t : Table) : List (String × List String) :=
  t.cols.map (fun c =>
    (c, dedupFS (t.rows.filterMap (fun r =>
      match r.get c with
      | none => none
      | some w => let s := pyStrip w.pyStr; if s == "" then none else some s))))

/-- `load_allowed_values`: mandatory; raises `FileNotFoundError` when the
path is unset or the file is absent, and `ValueError` when reading fails
(in particular on an empty file). -/
def loadAllowedValues : Source → Except LoadError (List (String × List String))
  | none => .error (.fileNotFound "Allowed values file not found")
  | some none => .error (.valueError "Error loading allowed values")
  | some (some t) => .ok (buildAllowed t)

/-- The diagnostics collected by `load_work_codes`. -/
structure WCIssues where
  missing_code_rows : List Nat
  missing_name_rows : List Nat
  name_with_multiple_codes : List (String × List String × List Nat)
deriving DecidableEq

/-- Header scan of `load_work_codes`: the column whose trimmed lowercase
name equals the target; a later match overwrites an earlier one. -/
def findCol (t : Table) (target : String) : Option String :=
  t.cols.foldl (fun acc c => if pyLower (pyStrip c) == target then some c else acc) none

/-- The fully-populated data rows of the work-code table: 1-based
spreadsheet row number (zero-based index + 2), trimmed code, trimmed
name. -/
def wcFull (t : Table) (codeCol nameCol : String) : List (Nat × String × String) :=
  t.rows.enum.filterMap (fun p =>
    let c := p.2.get codeCol
    let n := p.2.get nameCol
    if c.blank || n.blank then none
    else some (p.1 + 2, pyStrip c.pyStr, pyStrip n.pyStr))

/-- Row-and-pair processing of `load_work_codes` once the two columns are
found. Dict accumulation in the source is modelled by comprehensions
keyed in first-occurrence order. -/
def wcCore (t : Table) (codeCol nameCol : String) :
    List (String × String) × WCIssues :=
  let rows := t.rows.enum
  let missC := rows.filterMap (fun p =>
    if (p.2.get codeCol).blank then some (p.1 + 2) else none)
  let missN := rows.filterMap (fun p =>
    if (p.2.get nameCol).blank then some (p.1 + 2) else none)
  let full := wcFull t codeCol nameCol
  let names := dedupFS (full.map (fun q => q.2.2))
  let nameMult := names.filterMap (fun nm =>
    let codes := dedupFS (full.filterMap (fun q => if q.2.2 == nm then some q.2.1 else none))
    if codes.length > 1 then
      some (nm, sortDedupStr codes,
            full.filterMap (fun q => if q.2.2 == nm then some q.1 else none))
    else none)
  let pairs := dedupFS (full.map (fun q => (q.2.1, q.2.2)))
  (pairs, { missing_code_rows := missC, missing_name_rows := missN,
            name_with_multiple_codes := nameMult })

/-- `load_work_codes` on a parsed table: fails when the header does not
contain columns named "Work code" and "Work" (case-insensitively); the
issues record is kept only when some diagnostic is non-empty. -/
def loadWorkCodesTable (t : Table) :
    Except LoadError (List (String × String) × Option WCIssues) :=
  match findCol t "work code", findCol t "work" with
  | some codeCol, some nameCol =>
      let r := wcCore t codeCol nameCol
      let issues := r.2
      let keep := !(issues.missing_code_rows.isEmpty && issues.missing_name_rows.isEmpty &&
                    issues.name_with_multiple_codes.isEmpty)
      .ok (r.1, if keep then some issues else none)
  | _, _ => .error (.valueError "Work code file must contain columns named Work code and Work")

/-- `load_work_codes`: optional; absent file leaves the empty pair set,
a file that cannot be read raises `ValueError`. -/
def loadWorkCodes : Source → Except LoadError (List (String × String) × Option WCIssues)
  | none => .ok ([], none)
  | some none => .error (.valueError "Error loading work codes")
  | some (some t) => loadWorkCodesTable t

/-!
### Orchestrator `load_and_validate`
-/

/-- Observable events of the per-invoice loop: a progress-callback
invocation `(1-based index, total, invoice id)` and the completion of one
invoice's checks (the assignment `results[bill] = ...`). -/
inductive Event where
  | progress (i total : Nat) (bill : Val)
  | done (bill : Val)
deriving DecidableEq

/-- The per-invoice check results assembled by the loop body. -/
structure BillResult where
  columns_present : Bool
  no_missing_values : Bool
  missing_values : List (String × List Nat)
  coordination_correct : Bool
  coordination : CoordDetails
  allowed_values : Bool
  allowed_violations : List (String × List String)
  numeric_values : Bool
  numeric_violations : List (String × List Nat)
  work_pairs_valid : Bool
  work_pair_violations : WPDetails
deriving DecidableEq

/-- The aggregate report of `load_and_validate`, together with the trace
of observable loop events (the progress callback is modelled by the
trace rather than by a function argument). -/
structure Report where
  global_columns_ok : Bool
  missing_columns : List String
  exclude_conditions : List (List (String × String))
  total_bills : Nat
  results : List (Val × BillResult)
  trace : List Event
deriving DecidableEq

/-- The rows of the invoice group of bill id `b`, with original indices:
`self.df[self.df["Contract Bill No"] == bill]`. -/
def groupRows (t : Table) (b : Val) : Group :=
  t.rows.enum.filter (fun p => p.2.get "Contract Bill No" == some b)

/-- `bill_df["Cost"] = pd.to_numeric(bill_df["Cost"], errors="coerce")`. -/
def coerceRow (r : Row) : Row :=
  ⟨r.cells.map (fun p => if p.1 == "Cost" then (p.1, coerceCell p.2) else p)⟩

/-- One iteration body of the per-invoice loop: coerce the Cost column,
then run the five checks. -/
def processBill (cols : List String) (conds : List (List (String × String)))
    (allowed : List (String × List String)) (requiredCols : List String)
    (validPairs : List (String × String)) (pct tol : Rat) (g : Group) : BillResult :=
  let g2 : Group := g.map (fun p => (p.1, coerceRow p.2))
  let nmv := checkNoMissing requiredCols allowed cols g2
  let coord := checkCoordination cols conds pct tol g2
  let av := checkAllowedValues allowed cols g2
  let nv := checkNumericValues cols g2
  let wp := checkWorkPairs validPairs cols g2
  { columns_present := true,
    no_missing_values := nmv.1, missing_values := nmv.2,
    coordination_correct := coord.1, coordination := coord.2,
    allowed_values := av.1, allowed_violations := av.2,
    numeric_values := nv.1, numeric_violations := nv.2,
    work_pairs_valid := wp.1, work_pair_violations := wp.2 }

/-- One step of the per-invoice loop: the progress callback fires first,
then the invoice's checks run and its result is recorded. -/
def loopStep (t : Table) (conds : List (List (String × String)))
    (allowed : List (String × List String)) (requiredCols : List String)
    (validPairs : List (String × String)) (pct tol : Rat) (total : Nat)
    (acc : List (Val × BillResult) × List Event) (p : Nat × Val) :
    List (Val × BillResult) × List Event :=
  let res := processBill t.cols conds allowed requiredCols validPairs pct tol (groupRows t p.2)
  (acc.1 ++ [(p.2, res)],
   acc.2 ++ [Event.progress (p.1 + 1) total p.2, Event.done p.2])

/-- Steps 4–5 of `load_and_validate` on a parsed bill table: the global
column check, then the per-invoice loop over the distinct non-NaN bill
ids in first-seen order. -/
def validate (conds : List (List (String × String)))
    (allowed : List (String × List String)) (validPairs : List (String × String))
    (t : Table) (pct tol : Rat) : Report :=
  let requiredCols := allowed.map (fun pr => pr.1)
  let missing := missingColumns requiredCols t.cols
  if !missing.isEmpty then
    { global_columns_ok := false, missing_columns := missing,
      exclude_conditions := conds, total_bills := 0, results := [], trace := [] }
  else
    let bills := dedupFS (t.rows.filterMap (fun r => r.get "Contract Bill No"))
    let total := bills.length
    let out := bills.enum.foldl (loopStep t conds allowed requiredCols validPairs pct tol total) ([], [])
    { global_columns_ok := true, missing_columns := [],
      exclude_conditions := conds, total_bills := total,
      results := out.1, trace := out.2 }

/-- The whole of `load_and_validate`, loading phase included, in source
order: exclusion patterns, allowed values, work codes, bill table, then
validation. -/
def fullRun (exclSrc allowedSrc wcSrc billSrc : Source) (pct tol : Rat) :
    Except LoadError Report :=
  let excl := loadExcludePatterns exclSrc
  match loadAllowedValues allowedSrc with
  | .error e => .error e
  | .ok allowed =>
      match loadWorkCodes wcSrc with
      | .error e => .error e
      | .ok wc =>
          match billSrc with
          | none => .error (.valueError "Could not read bill file")
          | some none => .error (.valueError "Could not read bill file")
          | some (some bill) => .ok (validate excl.1 allowed wc.1 bill pct tol)

/-!
### General lemmas about the list combinators used by the checks
-/

/-- Pointwise-equal functions give equal `filterMap`s. -/
theorem filterMap_ext {α β : Type} (f g : α → Option β) (h : ∀ a, f a = g a)
    (l : List α) : l.filterMap f = l.filterMap g := by
  rw [funext h]

/-- Looking up a key in an association list built by `filterMap` over a
key list, where the value depends only on the key. -/
theorem lookup_filterMap_keys {β : Type} (g : String → Option β) (k : String) :
    ∀ keys : List String,
      (keys.filterMap (fun c => (g c).map (fun b => (c, b)))).lookup k =
        if k ∈ keys then g k else none := by
  intro keys
  induction keys with
  | nil => simp
  | cons c cs ih =>
      cases hg : g c with
      | none =>
          simp only [List.filterMap_cons, hg, Option.map_none', ih]
          by_cases hk : k = c
          · subst hk
            simp [hg]
          · simp [List.mem_cons, hk]
      | some b =>
          simp only [List.filterMap_cons, hg, Option.map_some', List.lookup]
          by_cases hk : k = c
          · subst hk
            simp [hg]
          · have : (k == c) = false := by simp [hk]
            simp [this, ih, List.mem_cons, hk]

/-- A key outside the key set of an association list built by `filterMap`
over pairs is not found. -/
theorem lookup_filterMap_pairs_none {A β : Type} (g : String × A → Option β) (k : String) :
    ∀ l : List (String × A), ¬ k ∈ l.map Prod.fst →
      (l.filterMap (fun q => (g q).map (fun b => (q.1, b)))).lookup k = none := by
  intro l
  induction l with
  | nil => simp
  | cons q qs ih =>
      intro hk
      simp only [List.map_cons, List.mem_cons, not_or] at hk
      cases hg : g q with
      | none => simpa [List.filterMap_cons, hg] using ih hk.2
      | some b =>
          have : (k == q.1) = false := by simp [hk.1]
          simp [List.filterMap_cons, hg, List.lookup, this, ih hk.2]

/-- Looking up the key of a member of a key-duplicate-free association
list built by `filterMap` over pairs yields that member's value. -/
theorem lookup_filterMap_pairs {A β : Type} (g : String × A → Option β) :
    ∀ (l : List (String × A)) (pr : String × A), (l.map Prod.fst).Nodup → pr ∈ l →
      (l.filterMap (fun q => (g q).map (fun b => (q.1, b)))).lookup pr.1 = g pr := by
  intro l
  induction l with
  | nil => simp
  | cons q qs ih =>
      intro pr hnd hm
      simp only [List.map_cons, List.nodup_cons] at hnd
      rcases List.mem_cons.mp hm with heq | htl
      · subst heq
        cases hg : g pr with
        | none =>
            simp only [List.filterMap_cons, hg, Option.map_none']
            exact lookup_filterMap_pairs_none g pr.1 qs hnd.1
        | some b => simp [List.filterMap_cons, hg, List.lookup]
      · have hne : (pr.1 == q.1) = false := by
          have : pr.1 ∈ qs.map Prod.fst := List.mem_map_of_mem Prod.fst htl
          have : pr.1 ≠ q.1 := fun h => hnd.1 (h ▸ this)
          simp [this]
        cases hg : g q with
        | none => simpa [List.filterMap_cons, hg] using ih pr hnd.2 htl
        | some b => simp [List.filterMap_cons, hg, List.lookup, hne, ih pr hnd.2 htl]

/-- A successful association-list lookup exhibits a member. -/
theorem lookup_some_mem {α β : Type} [BEq α] [LawfulBEq α] (k : α) (v : β) :
    ∀ l : List (α × β), l.lookup k = some v → (k, v) ∈ l := by
  intro l
  induction l with
  | nil => simp [List.lookup]
  | cons q qs ih =>
      intro h
      cases hq : (k == q.1) with
      | false =>
          have h2 : List.lookup k qs = some v := by simpa [List.lookup, hq] using h
          exact List.mem_cons_of_mem _ (ih h2)
      | true =>
          have hEq : k = q.1 := eq_of_beq hq
          have h2 : q.2 = v := by simpa [List.lookup, hq] using h
          have hq2 : (k, v) = q := by
            cases q
            simp_all
          rw [hq2]
          exact List.mem_cons_self _ _

/-- Membership in the first-seen deduplication with accumulator. -/
theorem mem_dedupFSAux {α : Type} [BEq α] [LawfulBEq α] (x : α) :
    ∀ (l seen : List α), x ∈ dedupFSAux seen l ↔ x ∈ l ∧ ¬ x ∈ seen := by
  intro l
  induction l with
  | nil => simp [dedupFSAux]
  | cons y ys ih =>
      intro seen
      simp only [dedupFSAux]
      by_cases h : seen.contains y
      · rw [if_pos h, ih]
        have hy : y ∈ seen := by simpa [List.contains_iff_exists_mem_beq, beq_iff_eq] using h
        constructor
        · rintro ⟨h1, h2⟩
          exact ⟨List.mem_cons_of_mem _ h1, h2⟩
        · rintro ⟨h1, h2⟩
          rcases List.mem_cons.mp h1 with rfl | h1
          · exact absurd hy h2
          · exact ⟨h1, h2⟩
      · rw [if_neg h]
        have hy : ¬ y ∈ seen := fun hmem => h (by simpa [List.contains_iff_exists_mem_beq, beq_iff_eq] using hmem)
        by_cases hx : x = y
        · subst hx
          simp [hy]
        · simp only [List.mem_cons, hx, false_or, ih, not_or]

/-- `dedupFS` preserves membership. -/
theorem mem_dedupFS {α : Type} [BEq α] [LawfulBEq α] (x : α) (l : List α) :
    x ∈ dedupFS l ↔ x ∈ l := by
  simp [dedupFS, mem_dedupFSAux]

/-- Boolean `contains` agrees with propositional membership. -/
theorem contains_iff_mem {α : Type} [BEq α] [LawfulBEq α] (l : List α) (a : α) :
    l.contains a = true ↔ a ∈ l := by
  rw [List.contains_iff_exists_mem_beq]
  constructor
  · rintro ⟨b, hb, hab⟩
    rwa [eq_of_beq hab]
  · intro h
    exact ⟨a, h, by simp⟩

/-!
### Order lemmas for the string sort used by `_check_allowed_values`
-/

/-- `charListLt` is irreflexive. -/
theorem charListLt_irrefl : ∀ as : List Char, charListLt as as = false := by
  intro as
  induction as with
  | nil => rfl
  | cons a l ih => simp [charListLt, lt_irrefl, ih]

/-- `charListLt` is trichotomous. -/
theorem charListLt_total : ∀ as bs : List Char,
    as = bs ∨ charListLt as bs = true ∨ charListLt bs as = true := by
  intro as
  induction as with
  | nil =>
      intro bs
      cases bs with
      | nil => exact Or.inl rfl
      | cons b l => exact Or.inr (Or.inl rfl)
  | cons a l ih =>
      intro bs
      cases bs with
      | nil => exact Or.inr (Or.inr rfl)
      | cons b m =>
          rcases lt_trichotomy a b with hab | hab | hab
          · exact Or.inr (Or.inl (by simp [charListLt, hab]))
          · subst hab
            rcases ih m with h | h | h
            · exact Or.inl (by rw [h])
            · exact Or.inr (Or.inl (by simp [charListLt, lt_irrefl, h]))
            · exact Or.inr (Or.inr (by simp [charListLt, lt_irrefl, h]))
          · exact Or.inr (Or.inr (by simp [charListLt, hab]))

/-- `charListLt` is transitive. -/
theorem charListLt_trans : ∀ as bs cs : List Char,
    charListLt as bs = true → charListLt bs cs = true → charListLt as cs = true := by
  intro as
  induction as with
  | nil =>
      intro bs cs h1 h2
      cases bs with
      | nil => exact h2
      | cons b m =>
          cases cs with
          | nil => simp [charListLt] at h2
          | cons c k => rfl
  | cons a l ih =>
      intro bs cs h1 h2
      cases bs with
      | nil => simp [charListLt] at h1
      | cons b m =>
          cases cs with
          | nil => simp [charListLt] at h2
          | cons c k =>
              simp only [charListLt] at h1 h2 ⊢
              by_cases hab : a < b
              · by_cases hbc : b < c
                · simp [lt_trans hab hbc]
                · by_cases hcb : c < b
                  · rw [if_neg hbc, if_pos hcb] at h2
                    exact absurd h2 (by simp)
                  · have : b = c := le_antisymm (le_of_not_lt hcb) (le_of_not_lt hbc)
                    subst this
                    simp [hab]
              · by_cases hba : b < a
                · rw [if_neg hab, if_pos hba] at h1
                  exact absurd h1 (by simp)
                · have hab2 : a = b := le_antisymm (le_of_not_lt hba) (le_of_not_lt hab)
                  subst hab2
                  rw [if_neg (lt_irrefl a), if_neg (lt_irrefl a)] at h1
                  by_cases hac : a < c
                  · simp [hac]
                  · by_cases hca : c < a
                    · rw [if_neg hac, if_pos hca] at h2
                      exact absurd h2 (by simp)
                    · have : a = c := le_antisymm (le_of_not_lt hca) (le_of_not_lt hac)
                      subst this
                      rw [if_neg (lt_irrefl a), if_neg (lt_irrefl a)] at h2
                      simp [lt_irrefl, ih m k h1 h2]

/-- `strLt` is irreflexive. -/
theorem strLt_irrefl (s : String) : strLt s s = false :=
  charListLt_irrefl s.toList

/-- `strLt` is trichotomous. -/
theorem strLt_total (s t : String) :
    s = t ∨ strLt s t = true ∨ strLt t s = true := by
  rcases charListLt_total s.toList t.toList with h | h | h
  · cases s with
    | mk d =>
        cases t with
        | mk e =>
            left
            have : d = e := h
            rw [this]
  · exact Or.inr (Or.inl h)
  · exact Or.inr (Or.inr h)

/-- `strLt` is transitive. -/
theorem strLt_trans {a b c : String} (h1 : strLt a b = true) (h2 : strLt b c = true) :
    strLt a c = true :=
  charListLt_trans a.toList b.toList c.toList h1 h2

/-- Sortedness in the sense of Python `sorted` on strings. -/
def StrSorted (l : List String) : Prop :=
  l.Pairwise (fun a b => strLt a b = true)

/-- Membership in `insertDedupStr`. -/
theorem mem_insertDedupStr (x z : String) : ∀ l : List String,
    z ∈ insertDedupStr x l ↔ z = x ∨ z ∈ l := by
  intro l
  induction l with
  | nil => simp [insertDedupStr]
  | cons y ys ih =>
      simp only [insertDedupStr]
      by_cases hxy : x == y
      · rw [if_pos hxy]
        have : x = y := eq_of_beq hxy
        subst this
        simp only [List.mem_cons]
        tauto
      · rw [if_neg hxy]
        by_cases hlt : strLt x y = true
        · rw [if_pos hlt]
          simp only [List.mem_cons]
        · rw [if_neg hlt]
          simp only [List.mem_cons, ih]
          tauto

/-- `insertDedupStr` preserves sortedness. -/
theorem insertDedupStr_sorted (x : String) : ∀ l : List String,
    StrSorted l → StrSorted (insertDedupStr x l) := by
  intro l
  induction l with
  | nil =>
      intro _
      simp [insertDedupStr, StrSorted]
  | cons y ys ih =>
      intro h
      have hy := (List.pairwise_cons.mp h).1
      have hys := (List.pairwise_cons.mp h).2
      simp only [insertDedupStr]
      by_cases hxy : x == y
      · rw [if_pos hxy]
        exact h
      · rw [if_neg hxy]
        by_cases hlt : strLt x y = true
        · rw [if_pos hlt]
          refine List.pairwise_cons.mpr ⟨?_, h⟩
          intro z hz
          rcases List.mem_cons.mp hz with rfl | hz
          · exact hlt
          · exact strLt_trans hlt (hy z hz)
        · rw [if_neg hlt]
          refine List.pairwise_cons.mpr ⟨?_, ih hys⟩
          intro z hz
          rcases (mem_insertDedupStr x z ys).mp hz with rfl | hz
          · rcases strLt_total z y with rfl | h1 | h1
            · exact absurd (by simp) hxy
            · exact absurd h1 hlt
            · exact h1
          · exact hy z hz

/-- Membership in `sortDedupStr`. -/
theorem mem_sortDedupStr (z : String) : ∀ l : List String,
    z ∈ sortDedupStr l ↔ z ∈ l := by
  intro l
  induction l with
  | nil => simp [sortDedupStr]
  | cons x xs ih =>
      show z ∈ insertDedupStr x (sortDedupStr xs) ↔ _
      rw [mem_insertDedupStr, ih]
      simp [List.mem_cons]

/-- `sortDedupStr` sorts. -/
theorem sortDedupStr_sorted : ∀ l : List String, StrSorted (sortDedupStr l) := by
  intro l
  induction l with
  | nil => simp [sortDedupStr, StrSorted]
  | cons x xs ih => exact insertDedupStr_sorted x (sortDedupStr xs) ih

/-- `sortDedupStr` removes duplicates. -/
theorem sortDedupStr_nodup (l : List String) : (sortDedupStr l).Nodup := by
  refine (sortDedupStr_sorted l).imp ?_
  intro a b hab heq
  rw [heq] at hab
  rw [strLt_irrefl b] at hab
  exact Bool.noConfusion hab

/-!
### Lemmas about the per-invoice loop and the Cost coercion
-/

/-- The event trace accumulated by the per-invoice loop: the progress
event precedes the checks-completed event of each invoice, in loop
order. -/
theorem foldl_loopStep_trace (t : Table) (conds : List (List (String × String)))
    (allowed : List (String × List String)) (requiredCols : List String)
    (validPairs : List (String × String)) (pct tol : Rat) (total : Nat) :
    ∀ (l : List (Nat × Val)) (acc : List (Val × BillResult) × List Event),
      (l.foldl (loopStep t conds allowed requiredCols validPairs pct tol total) acc).2 =
        acc.2 ++ l.flatMap (fun p => [Event.progress (p.1 + 1) total p.2, Event.done p.2]) := by
  intro l
  induction l with
  | nil => simp
  | cons p ps ih =>
      intro acc
      simp only [List.foldl_cons, ih, List.flatMap_cons, loopStep]
      simp [List.append_assoc]

/-- The results list accumulated by the per-invoice loop. -/
theorem foldl_loopStep_results (t : Table) (conds : List (List (String × String)))
    (allowed : List (String × List String)) (requiredCols : List String)
    (validPairs : List (String × String)) (pct tol : Rat) (total : Nat) :
    ∀ (l : List (Nat × Val)) (acc : List (Val × BillResult) × List Event),
      (l.foldl (loopStep t conds allowed requiredCols validPairs pct tol total) acc).1 =
        acc.1 ++ l.map (fun p =>
          (p.2, processBill t.cols conds allowed requiredCols validPairs pct tol (groupRows t p.2))) := by
  intro l
  induction l with
  | nil => simp
  | cons p ps ih =>
      intro acc
      simp only [List.foldl_cons, ih, List.map_cons, loopStep]
      simp [List.append_assoc]

/-- Coercing the Cost column of a row coerces exactly its Cost cell. -/
theorem lookup_coerce_cost (l : List (String × Cell)) :
    (l.map (fun p => if p.1 == "Cost" then (p.1, coerceCell p.2) else p)).lookup "Cost" =
      (l.lookup "Cost").map coerceCell := by
  induction l with
  | nil => simp
  | cons p ps ih =>
      obtain ⟨k, v⟩ := p
      simp only [List.map_cons]
      by_cases hp : k = "Cost"
      · subst hp
        rw [if_pos (by simp)]
        simp [List.lookup]
      · rw [if_neg (by simpa using hp)]
        have h2 : ("Cost" == k) = false := by
          have hne : ¬ "Cost" = k := fun h => hp (Eq.symm h)
          simp [hne]
        simp only [List.lookup, h2]
        simpa using ih

/-- `Row.get "Cost"` after the Cost coercion of the loop body. -/
theorem coerceRow_get_cost (r : Row) :
    (coerceRow r).get "Cost" = coerceCell (r.get "Cost") := by
  show ((r.cells.map (fun p => if p.1 == "Cost" then (p.1, coerceCell p.2) else p)).lookup "Cost").getD none =
    coerceCell ((r.cells.lookup "Cost").getD none)
  rw [lookup_coerce_cost]
  cases r.cells.lookup "Cost" <;> simp [coerceCell]

/-- A coerced cell is NaN or numeric. -/
theorem coerceCell_shape (c : Cell) :
    coerceCell c = none ∨ ∃ q : Rat, coerceCell c = some (.vnum q) := by
  cases c with
  | none => exact Or.inl rfl
  | some v =>
      cases hv : v.toFloat with
      | none => exact Or.inl (by simp [coerceCell, hv])
      | some q => exact Or.inr ⟨q, by simp [coerceCell, hv]⟩

/-- The pandas NaN-skipping Cost sum, expressed cellwise: a cell
contributes its parsed value, and a NaN or unparseable cell contributes
zero. -/
theorem cellNum_coerceCell (c : Cell) :
    cellNum (coerceCell c) = (c.toFloat).getD 0 := by
  cases c with
  | none => rfl
  | some v =>
      show cellNum (coerceCell (some v)) = (v.toFloat).getD 0
      cases hv : v.toFloat with
      | none => simp [coerceCell, hv, cellNum]
      | some q => simp [coerceCell, hv, cellNum]

/-!
### The claims
-/

/-- C1: for every invoice group, the coordination_correct check passes
iff either the group contains no coordination row (no row whose trimmed
"Work code" equals "C"), or `|expected - actual| ≤ tolerance`, where
actual is the Cost sum over coordination rows, the base amount is the
Cost sum over rows that are neither coordination rows nor excluded, and
expected is the base amount times (coordination percentage / 100). -/
theorem coordination_check_passes_iff (cols : List String)
    (conds : List (List (String × String))) (pct tol : Rat) (g : Group) :
    (checkCoordination cols conds pct tol g).1 = true ↔
      (g.filter (fun p => isCoordRow p.2) = [] ∨
       |costSum (g.filter (fun p => !(isCoordRow p.2) && !(isExcluded cols conds p.2))) * (pct / 100) -
          costSum (g.filter (fun p => isCoordRow p.2))| ≤ tol) := by
  have hbase : g.filter (fun p => !(isExcluded cols conds p.2) && !(isCoordRow p.2)) =
      g.filter (fun p => !(isCoordRow p.2) && !(isExcluded cols conds p.2)) := by
    apply List.filter_congr
    intro x _
    exact Bool.and_comm _ _
  simp only [checkCoordination]
  by_cases h : (g.filter (fun p => isCoordRow p.2)).isEmpty
  · rw [if_pos h]
    simp [List.isEmpty_iff.mp h]
  · rw [if_neg h]
    have h' : ¬ (g.filter (fun p => isCoordRow p.2)) = [] := by
      simpa [List.isEmpty_iff] using h
    simp [h', hbase, decide_eq_true_iff]

/-- C2: a bill table whose header is missing at least one required column
(a column named in the allowed-values reference header) yields a report
with global_columns_ok = false listing the missing columns, zero invoices
processed and an empty per-bill results mapping, regardless of the bill
rows and the other reference inputs. -/
theorem column_short_circuit (conds : List (List (String × String)))
    (allowed : List (String × List String)) (validPairs : List (String × String))
    (t : Table) (pct tol : Rat)
    (h : ∃ c ∈ allowed.map (fun pr => pr.1), ¬ c ∈ t.cols) :
    (validate conds allowed validPairs t pct tol).global_columns_ok = false ∧
    (validate conds allowed validPairs t pct tol).missing_columns =
      missingColumns (allowed.map (fun pr => pr.1)) t.cols ∧
    (validate conds allowed validPairs t pct tol).total_bills = 0 ∧
    (validate conds allowed validPairs t pct tol).results = [] ∧
    (validate conds allowed validPairs t pct tol).trace = [] := by
  obtain ⟨c, hc, hnc⟩ := h
  have hmem : c ∈ missingColumns (allowed.map (fun pr => pr.1)) t.cols := by
    simp [missingColumns, List.mem_filter, hc, List.contains, hnc]
  have hcond : (!(missingColumns (allowed.map (fun pr => pr.1)) t.cols).isEmpty) = true := by
    cases hb : (missingColumns (allowed.map (fun pr => pr.1)) t.cols).isEmpty with
    | false => simp
    | true =>
        rw [List.isEmpty_iff.mp hb] at hmem
        exact absurd hmem (List.not_mem_nil c)
  simp only [validate]
  rw [if_pos hcond]
  exact ⟨rfl, rfl, rfl, rfl, rfl⟩

/-- Witness for C2 at a concrete input: required column "A", bill header
only "B". -/
theorem column_short_circuit_witness :
    (validate [] [("A", [])] [] ⟨["B"], []⟩ 15 10).global_columns_ok = false ∧
    (validate [] [("A", [])] [] ⟨["B"], []⟩ 15 10).missing_columns =
      missingColumns ([("A", ([] : List String))].map (fun pr => pr.1)) ["B"] ∧
    (validate [] [("A", [])] [] ⟨["B"], []⟩ 15 10).total_bills = 0 ∧
    (validate [] [("A", [])] [] ⟨["B"], []⟩ 15 10).results = [] ∧
    (validate [] [("A", [])] [] ⟨["B"], []⟩ 15 10).trace = [] :=
  column_short_circuit [] [("A", [])] [] ⟨["B"], []⟩ 15 10
    ⟨"A", by decide, by decide⟩

/-- C3: a bill row is excluded from the base amount iff it satisfies all
(column, value) pairs of at least one rule, where a single pair matches
by numeric equality within absolute epsilon 1e-9 when both sides parse as
numbers, otherwise by exact trimmed-string equality, and a pair never
matches a missing (NaN) cell. The hypothesis states the table
well-formedness fact that a column absent from the header is absent from
the row (pandas guarantees it); under it the source's skipping of rules
that reference absent columns is equivalent to those pairs simply never
matching. -/
theorem exclusion_rule_matching (cols : List String)
    (conds : List (List (String × String))) (r : Row)
    (hwf : ∀ cond ∈ conds, ∀ p ∈ cond, ¬ p.1 ∈ cols → r.get p.1 = none) :
    (isExcluded cols conds r = true ↔
      ∃ cond ∈ conds, ∀ p ∈ cond, matchPair (r.get p.1) p.2 = true) ∧
    (∀ v : String, matchPair none v = false) ∧
    (∀ (x : Cell) (v : String) (a b : Rat), x.toFloat = some a → parseFloat v = some b →
      (matchPair x v = true ↔ |a - b| < matchEps)) ∧
    (∀ (w : Val) (v : String), w.toFloat = none ∨ parseFloat v = none →
      (matchPair (some w) v = true ↔ pyStrip w.pyStr = v)) := by
  refine ⟨?_, fun v => rfl, ?_, ?_⟩
  · have key : ∀ cond ∈ conds,
        (condApplies cols cond && cond.all (fun p => matchPair (r.get p.1) p.2)) =
          cond.all (fun p => matchPair (r.get p.1) p.2) := by
      intro cond hc
      cases ha : condApplies cols cond with
      | true => rw [Bool.true_and]
      | false =>
          have hax : ∃ p, p ∈ cond ∧ ¬ p.1 ∈ cols := by
            have := ha
            unfold condApplies at this
            simpa [List.all_eq_false, List.contains] using this
          obtain ⟨p, hp, hnc⟩ := hax
          have hget : r.get p.1 = none := hwf cond hc p hp hnc
          have hall : cond.all (fun q => matchPair (r.get q.1) q.2) = false := by
            rw [List.all_eq_false]
            exact ⟨p, hp, by simp [hget, matchPair]⟩
          rw [hall, Bool.and_false]
    unfold isExcluded
    rw [List.any_eq_true]
    constructor
    · rintro ⟨cond, hc, hb⟩
      rw [key cond hc] at hb
      exact ⟨cond, hc, List.all_eq_true.mp hb⟩
    · rintro ⟨cond, hc, hb⟩
      exact ⟨cond, hc, by rw [key cond hc]; exact List.all_eq_true.mpr hb⟩
  · intro x v a b hx hv
    cases x with
    | none => simp [Cell.toFloat] at hx
    | some w =>
        have hw : w.toFloat = some a := hx
        simp [matchPair, hw, hv, decide_eq_true_iff]
  · intro w v h
    rcases h with h | h
    · simp [matchPair, h]
    · cases hw : w.toFloat with
      | none => simp [matchPair, hw]
      | some a => simp [matchPair, hw, h]

/-- Witness for C3 at concrete inputs: the rule pair ("A", "x") matches
the non-numeric cell "x " by trimmed-string equality, so the row is
excluded. -/
theorem exclusion_rule_matching_witness :
    isExcluded ["A"] [[("A", "x")]] ⟨[("A", some (.vstr "x "))]⟩ = true :=
  ((exclusion_rule_matching ["A"] [[("A", "x")]] ⟨[("A", some (.vstr "x "))]⟩
      (by decide)).1).mpr ⟨[("A", "x")], by decide, by decide⟩

/-- C4: a required column whose allowed set contains the token "blank"
never contributes a no_missing_values failure detail, even for empty
cells; for a required column without "blank" that is present in the
table, every row of the group whose cell is empty (NaN or blank after
stripping) appears in that column's detail as the 1-based spreadsheet
row number (zero-based index + 2). -/
theorem blank_override_missing_values (requiredCols : List String)
    (allowed : List (String × List String)) (cols : List String) (g : Group)
    (col : String) :
    ("blank" ∈ (allowed.lookup col).getD [] →
      (checkNoMissing requiredCols allowed cols g).2.lookup col = none) ∧
    (col ∈ requiredCols → ¬ "blank" ∈ (allowed.lookup col).getD [] → col ∈ cols →
      ∀ p ∈ g, (p.2.get col).blank = true →
        (p.1 + 2) ∈ ((checkNoMissing requiredCols allowed cols g).2.lookup col).getD []) := by
  have hlk : (checkNoMissing requiredCols allowed cols g).2.lookup col =
      if col ∈ requiredCols then missingEntry allowed cols g col else none :=
    lookup_filterMap_keys (missingEntry allowed cols g) col requiredCols
  constructor
  · intro hb
    have hbc : (((allowed.lookup col).getD []).contains "blank") = true :=
      (contains_iff_mem _ _).mpr hb
    have hent : missingEntry allowed cols g col = none := by
      unfold missingEntry
      by_cases hc : cols.contains col = true
      · rw [if_pos hc, if_pos hbc]
      · rw [if_neg hc]
    rw [hlk]
    by_cases hreq : col ∈ requiredCols
    · rw [if_pos hreq, hent]
    · rw [if_neg hreq]
  · intro hreq hb hcols p hp hblank
    rw [hlk, if_pos hreq]
    have hbc : (((allowed.lookup col).getD []).contains "blank") = false := by
      cases hx : (((allowed.lookup col).getD []).contains "blank") with
      | false => rfl
      | true => exact absurd ((contains_iff_mem _ _).mp hx) hb
    have hcc : cols.contains col = true := List.elem_eq_true_of_mem hcols
    simp only [missingEntry]
    rw [if_pos hcc, if_neg (by rw [hbc]; exact Bool.false_ne_true)]
    have hmem : (p.1 + 2) ∈
        g.filterMap (fun q => if (q.2.get col).blank then some (q.1 + 2) else none) :=
      List.mem_filterMap.mpr ⟨p, hp, by simp [hblank]⟩
    have hne : ¬ (g.filterMap (fun q =>
        if (q.2.get col).blank then some (q.1 + 2) else none)).isEmpty = true := by
      intro he
      rw [List.isEmpty_iff.mp he] at hmem
      exact List.not_mem_nil _ hmem
    rw [if_neg hne]
    simpa using hmem

/-- Witness for C4: column "X" allows "blank" so its empty cell is not
reported; column "Y" does not, so its NaN cell is reported at row 2. -/
theorem blank_override_missing_values_witness :
    (checkNoMissing ["X", "Y"] [("X", ["blank"]), ("Y", ["v"])] ["X", "Y"]
        [(0, ⟨[("X", some (.vstr " ")), ("Y", none)]⟩)]).2.lookup "X" = none ∧
    (0 + 2) ∈ ((checkNoMissing ["X", "Y"] [("X", ["blank"]), ("Y", ["v"])] ["X", "Y"]
        [(0, ⟨[("X", some (.vstr " ")), ("Y", none)]⟩)]).2.lookup "Y").getD [] :=
  ⟨(blank_override_missing_values ["X", "Y"] [("X", ["blank"]), ("Y", ["v"])] ["X", "Y"]
      [(0, ⟨[("X", some (.vstr " ")), ("Y", none)]⟩)] "X").1 (by decide),
   (blank_override_missing_values ["X", "Y"] [("X", ["blank"]), ("Y", ["v"])] ["X", "Y"]
      [(0, ⟨[("X", some (.vstr " ")), ("Y", none)]⟩)] "Y").2 (by decide) (by decide)
      (by decide) (0, ⟨[("X", some (.vstr " ")), ("Y", none)]⟩) (by decide) (by decide)⟩

/-- When the per-column body of `_check_allowed_values` produces an
entry: the column is present, its set has no "any", is non-empty, and
some non-empty cell carries a value outside the set. -/
theorem allowedEntry_ne_none_iff (cols : List String) (g : Group) (col : String)
    (aset : List String) :
    allowedEntry cols g col aset ≠ none ↔
      (col ∈ cols ∧ ¬ "any" ∈ aset ∧ aset ≠ [] ∧
       ∃ p ∈ g, (p.2.get col).blank = false ∧ ¬ pyStrip (p.2.get col).pyStr ∈ aset) := by
  simp only [allowedEntry]
  by_cases hc : cols.contains col = true
  · rw [if_pos hc]
    have hcm : col ∈ cols := (contains_iff_mem _ _).mp hc
    by_cases hany : aset.contains "any" = true
    · rw [if_pos hany]
      have : "any" ∈ aset := (contains_iff_mem _ _).mp hany
      simp [this]
    · rw [if_neg hany]
      have hanym : ¬ "any" ∈ aset := fun hm => hany ((contains_iff_mem _ _).mpr hm)
      by_cases hemp : aset.isEmpty = true
      · rw [if_pos hemp]
        simp [List.isEmpty_iff.mp hemp]
      · rw [if_neg hemp]
        have hne : aset ≠ [] := by
          intro hh
          exact hemp (by simp [hh])
        by_cases hbad : (g.filterMap (fun p =>
            if (p.2.get col).blank then none
            else
              if aset.contains (pyStrip (p.2.get col).pyStr) then none
              else some (pyStrip (p.2.get col).pyStr))).isEmpty = true
        · rw [if_pos hbad]
          have hall := List.filterMap_eq_nil_iff.mp (List.isEmpty_iff.mp hbad)
          constructor
          · intro hcontr
            exact absurd rfl hcontr
          · rintro ⟨_, _, _, p, hp, hbl, hout⟩
            have hfp := hall p hp
            rw [if_neg (by simp [hbl])] at hfp
            rw [if_neg (fun hcontr => hout ((contains_iff_mem _ _).mp hcontr))] at hfp
            exact absurd hfp (by simp)
        · rw [if_neg hbad]
          have hnil : (g.filterMap (fun p =>
              if (p.2.get col).blank then none
              else
                if aset.contains (pyStrip (p.2.get col).pyStr) then none
                else some (pyStrip (p.2.get col).pyStr))) ≠ [] := by
            intro hh
            exact hbad (by rw [hh]; rfl)
          rcases List.exists_mem_of_ne_nil _ hnil with ⟨s, hs⟩
          rcases List.mem_filterMap.mp hs with ⟨p, hp, hfp⟩
          have hbl : (p.2.get col).blank = false := by
            cases hb2 : (p.2.get col).blank with
            | false => rfl
            | true => rw [if_pos hb2] at hfp; exact Option.noConfusion hfp
          rw [if_neg (by simp [hbl])] at hfp
          have hout : ¬ pyStrip (p.2.get col).pyStr ∈ aset := by
            intro hm
            rw [if_pos ((contains_iff_mem _ _).mpr hm)] at hfp
            exact Option.noConfusion hfp
          constructor
          · intro _
            exact ⟨hcm, hanym, hne, p, hp, hbl, hout⟩
          · intro _
            simp
  · rw [if_neg hc]
    have : ¬ col ∈ cols := fun hm => hc ((contains_iff_mem _ _).mpr hm)
    simp [this]

/-- C5 counterexample: for a column whose allowed set is empty (which
does not contain "any"), the source skips the column entirely, so the
check passes even though a non-empty cell carries a value outside the
(empty) set — the claimed "fails iff some non-empty cell is outside the
set" equivalence is false at this input. -/
theorem allowed_values_membership_counterexample :
    ¬ (((checkAllowedValues [("X", [])] ["X"] [(0, ⟨[("X", some (.vstr "v"))]⟩)]).1 = false) ↔
        ∃ pr ∈ [("X", ([] : List String))], ¬ "any" ∈ pr.2 ∧ pr.1 ∈ ["X"] ∧
          ∃ p ∈ [((0 : Nat), (⟨[("X", some (.vstr "v"))]⟩ : Row))],
            (p.2.get pr.1).blank = false ∧ ¬ pyStrip (p.2.get pr.1).pyStr ∈ pr.2) := by
  decide

/-- C5 (amended): for every column of the allowed-value map whose set is
non-empty and does not contain "any", the allowed_values check fails iff
some non-empty cell's stripped value in the group lies outside the set
(empty cells exempt), and the failure detail maps the column to the
sorted duplicate-free list of the offending values (no row numbers);
columns whose set contains "any" (and, in the source, columns with an
empty set) never produce violations. -/
theorem allowed_values_membership (allowed : List (String × List String))
    (cols : List String) (g : Group)
    (hnd : (allowed.map Prod.fst).Nodup) :
    ((checkAllowedValues allowed cols g).1 = false ↔
      ∃ pr ∈ allowed, ¬ "any" ∈ pr.2 ∧ pr.2 ≠ [] ∧ pr.1 ∈ cols ∧
        ∃ p ∈ g, (p.2.get pr.1).blank = false ∧ ¬ pyStrip (p.2.get pr.1).pyStr ∈ pr.2) ∧
    (∀ pr ∈ allowed, ¬ "any" ∈ pr.2 → pr.2 ≠ [] → pr.1 ∈ cols →
      (checkAllowedValues allowed cols g).2.lookup pr.1 =
        (if (g.filterMap (fun p =>
              if (p.2.get pr.1).blank then none
              else
                if pr.2.contains (pyStrip (p.2.get pr.1).pyStr) then none
                else some (pyStrip (p.2.get pr.1).pyStr))).isEmpty then none
         else some (sortDedupStr (g.filterMap (fun p =>
              if (p.2.get pr.1).blank then none
              else
                if pr.2.contains (pyStrip (p.2.get pr.1).pyStr) then none
                else some (pyStrip (p.2.get pr.1).pyStr)))))) ∧
    (∀ pr ∈ allowed, "any" ∈ pr.2 →
      (checkAllowedValues allowed cols g).2.lookup pr.1 = none) ∧
    (∀ L : List String, StrSorted (sortDedupStr L) ∧ (sortDedupStr L).Nodup ∧
      (∀ s, s ∈ sortDedupStr L ↔ s ∈ L)) := by
  refine ⟨?_, ?_, ?_, fun L => ⟨sortDedupStr_sorted L, sortDedupStr_nodup L,
    fun s => mem_sortDedupStr s L⟩⟩
  · simp only [checkAllowedValues]
    constructor
    · intro h
      have hne := List.isEmpty_eq_false.mp h
      rcases List.exists_mem_of_ne_nil _ hne with ⟨e, he⟩
      rcases List.mem_filterMap.mp he with ⟨pr, hpr, hfp⟩
      have hnn : allowedEntry cols g pr.1 pr.2 ≠ none := by
        intro hn
        rw [hn] at hfp
        exact Option.noConfusion hfp
      rcases (allowedEntry_ne_none_iff cols g pr.1 pr.2).mp hnn with ⟨h1, h2, h3, h4⟩
      exact ⟨pr, hpr, h2, h3, h1, h4⟩
    · rintro ⟨pr, hpr, h2, h3, h1, h4⟩
      have hnn : allowedEntry cols g pr.1 pr.2 ≠ none :=
        (allowedEntry_ne_none_iff cols g pr.1 pr.2).mpr ⟨h1, h2, h3, h4⟩
      cases he : allowedEntry cols g pr.1 pr.2 with
      | none => exact absurd he hnn
      | some b =>
          have hmem : (pr.1, b) ∈ allowed.filterMap
              (fun pr => (allowedEntry cols g pr.1 pr.2).map (fun b => (pr.1, b))) :=
            List.mem_filterMap.mpr ⟨pr, hpr, by rw [he]; rfl⟩
          cases hi : (allowed.filterMap
              (fun pr => (allowedEntry cols g pr.1 pr.2).map (fun b => (pr.1, b)))).isEmpty with
          | false => rfl
          | true =>
              rw [List.isEmpty_iff.mp hi] at hmem
              exact absurd hmem (List.not_mem_nil _)
  · intro pr hpr hany hne hcol
    have hl := lookup_filterMap_pairs (fun q => allowedEntry cols g q.1 q.2) allowed pr hnd hpr
    show (allowed.filterMap
        (fun pr => (allowedEntry cols g pr.1 pr.2).map (fun b => (pr.1, b)))).lookup pr.1 = _
    rw [hl]
    simp only [allowedEntry]
    rw [if_pos ((contains_iff_mem _ _).mpr hcol)]
    rw [if_neg (fun hcontr => hany ((contains_iff_mem _ _).mp hcontr))]
    rw [if_neg (fun hcontr => hne (List.isEmpty_iff.mp hcontr))]
  · intro pr hpr hany
    have hl := lookup_filterMap_pairs (fun q => allowedEntry cols g q.1 q.2) allowed pr hnd hpr
    show (allowed.filterMap
        (fun pr => (allowedEntry cols g pr.1 pr.2).map (fun b => (pr.1, b)))).lookup pr.1 = _
    rw [hl]
    simp only [allowedEntry]
    by_cases hc : cols.contains pr.1 = true
    · rw [if_pos hc, if_pos ((contains_iff_mem _ _).mpr hany)]
    · rw [if_neg hc]

/-- Witness for C5: allowed set {"A","B"} (no "any"), the value "C"
appearing in two rows is reported exactly once. -/
theorem allowed_values_membership_witness :
    (checkAllowedValues [("X", ["A", "B"])] ["X"]
        [(0, ⟨[("X", some (.vstr "C"))]⟩), (1, ⟨[("X", some (.vstr "C"))]⟩)]).2.lookup "X" =
      some ["C"] := by
  have h := (allowed_values_membership [("X", ["A", "B"])] ["X"]
      [(0, ⟨[("X", some (.vstr "C"))]⟩), (1, ⟨[("X", some (.vstr "C"))]⟩)] (by decide)).2.1
  rw [h ("X", ["A", "B"]) (by decide) (by decide) (by decide) (by decide)]
  decide

/-- C6: for each designated numeric column present in the invoice group,
the numeric_values check reports exactly the non-empty cells on which
`float` fails, each at its 1-based spreadsheet row number (zero-based
index + 2); empty (blank after stripping) or NaN cells are never
reported. -/
theorem numeric_values_reporting (cols : List String) (g : Group) (col : String)
    (h : col ∈ numericCols) :
    (checkNumericValues cols g).2.lookup col =
      (if col ∈ cols then
        (if (g.filterMap (fun p =>
              if (p.2.get col).blank = false ∧ (p.2.get col).toFloat = none
              then some (p.1 + 2) else none)) = [] then none
         else some (g.filterMap (fun p =>
              if (p.2.get col).blank = false ∧ (p.2.get col).toFloat = none
              then some (p.1 + 2) else none)))
       else none) := by
  have hl : (checkNumericValues cols g).2.lookup col =
      if col ∈ numericCols then numericEntry cols g col else none :=
    lookup_filterMap_keys (numericEntry cols g) col numericCols
  rw [hl, if_pos h]
  have hfm : g.filterMap (fun p =>
        let v := p.2.get col
        if v.blank then none
        else if (v.toFloat).isSome then none
        else some (p.1 + 2)) =
      g.filterMap (fun p =>
        if (p.2.get col).blank = false ∧ (p.2.get col).toFloat = none
        then some (p.1 + 2) else none) := by
    apply filterMap_ext
    intro p
    cases hb : (p.2.get col).blank with
    | true => simp [hb]
    | false =>
        cases hf : (p.2.get col).toFloat with
        | none => simp [hb, hf]
        | some q => simp [hb, hf]
  simp only [numericEntry, hfm]
  by_cases hc : cols.contains col = true
  · rw [if_pos hc, if_pos ((contains_iff_mem cols col).mp hc)]
    by_cases he : (g.filterMap (fun p =>
        if (p.2.get col).blank = false ∧ (p.2.get col).toFloat = none
        then some (p.1 + 2) else none)).isEmpty = true
    · rw [if_pos he, if_pos (List.isEmpty_iff.mp he)]
    · rw [if_neg he, if_neg (fun hcontr => he (by rw [hcontr]; rfl))]
  · rw [if_neg hc, if_neg (fun hm => hc ((contains_iff_mem _ _).mpr hm))]

/-- Witness for C6: a Cost cell "abc" is reported at spreadsheet row 2;
an empty Cost cell (row index 1) is not reported by this check. -/
theorem numeric_values_reporting_witness :
    (checkNumericValues ["Cost"]
        [(0, ⟨[("Cost", some (.vstr "abc"))]⟩), (1, ⟨[("Cost", some (.vstr " "))]⟩)]).2.lookup "Cost" =
      some [2] := by
  rw [numeric_values_reporting ["Cost"]
      [(0, ⟨[("Cost", some (.vstr "abc"))]⟩), (1, ⟨[("Cost", some (.vstr " "))]⟩)] "Cost"
      (by decide)]
  decide

/-- C7: loading the work-code reference records every row with an empty
code (resp. name) cell under its 1-based spreadsheet row number
(zero-based index + 2), registers pairs only from fully-populated rows,
and maps every work name that occurs with more than one distinct code to
the sorted list of its distinct codes together with the row numbers of
all of its occurrences (not only the conflicting ones). -/
theorem work_code_reference_loading (t : Table) (codeCol nameCol : String)
    (hc : findCol t "work code" = some codeCol) (hn : findCol t "work" = some nameCol) :
    (loadWorkCodesTable t =
      .ok ((wcCore t codeCol nameCol).1,
        if !(((wcCore t codeCol nameCol).2.missing_code_rows).isEmpty &&
             ((wcCore t codeCol nameCol).2.missing_name_rows).isEmpty &&
             ((wcCore t codeCol nameCol).2.name_with_multiple_codes).isEmpty)
        then some (wcCore t codeCol nameCol).2 else none)) ∧
    (∀ p ∈ t.rows.enum, (p.2.get codeCol).blank = true →
      (p.1 + 2) ∈ (wcCore t codeCol nameCol).2.missing_code_rows) ∧
    (∀ p ∈ t.rows.enum, (p.2.get nameCol).blank = true →
      (p.1 + 2) ∈ (wcCore t codeCol nameCol).2.missing_name_rows) ∧
    (∀ pr ∈ (wcCore t codeCol nameCol).1,
      ∃ q ∈ wcFull t codeCol nameCol, pr = (q.2.1, q.2.2)) ∧
    (∀ nm : String,
      ((wcCore t codeCol nameCol).2.name_with_multiple_codes).lookup nm =
        (if 1 < (dedupFS ((wcFull t codeCol nameCol).filterMap
              (fun q => if q.2.2 == nm then some q.2.1 else none))).length then
          some (sortDedupStr (dedupFS ((wcFull t codeCol nameCol).filterMap
                  (fun q => if q.2.2 == nm then some q.2.1 else none))),
                (wcFull t codeCol nameCol).filterMap
                  (fun q => if q.2.2 == nm then some q.1 else none))
         else none)) := by
  refine ⟨?_, ?_, ?_, ?_, ?_⟩
  · simp only [loadWorkCodesTable, hc, hn]
  · intro p hp hb
    simp only [wcCore]
    exact List.mem_filterMap.mpr ⟨p, hp, by simp [hb]⟩
  · intro p hp hb
    simp only [wcCore]
    exact List.mem_filterMap.mpr ⟨p, hp, by simp [hb]⟩
  · intro pr hpr
    simp only [wcCore] at hpr
    have := (mem_dedupFS pr _).mp hpr
    rcases List.mem_map.mp this with ⟨q, hq, hqe⟩
    exact ⟨q, hq, hqe.symm⟩
  · intro nm
    simp only [wcCore]
    have hshape : ((dedupFS ((wcFull t codeCol nameCol).map (fun q => q.2.2))).filterMap
        (fun nm =>
          let codes := dedupFS ((wcFull t codeCol nameCol).filterMap
            (fun q => if q.2.2 == nm then some q.2.1 else none))
          if codes.length > 1 then
            some (nm, sortDedupStr codes,
                  (wcFull t codeCol nameCol).filterMap
                    (fun q => if q.2.2 == nm then some q.1 else none))
          else none)) =
        ((dedupFS ((wcFull t codeCol nameCol).map (fun q => q.2.2))).filterMap
          (fun nm =>
            (if 1 < (dedupFS ((wcFull t codeCol nameCol).filterMap
                  (fun q => if q.2.2 == nm then some q.2.1 else none))).length then
              some (sortDedupStr (dedupFS ((wcFull t codeCol nameCol).filterMap
                      (fun q => if q.2.2 == nm then some q.2.1 else none))),
                    (wcFull t codeCol nameCol).filterMap
                      (fun q => if q.2.2 == nm then some q.1 else none))
             else none).map (fun b => (nm, b)))) := by
      apply filterMap_ext
      intro a
      by_cases hlen : 1 < (dedupFS ((wcFull t codeCol nameCol).filterMap
          (fun q => if q.2.2 == a then some q.2.1 else none))).length
      · simp [hlen]
      · simp [hlen]
    rw [hshape, lookup_filterMap_keys]
    by_cases hmem : nm ∈ dedupFS ((wcFull t codeCol nameCol).map (fun q => q.2.2))
    · rw [if_pos hmem]
    · rw [if_neg hmem]
      have hnil : (wcFull t codeCol nameCol).filterMap
          (fun q => if q.2.2 == nm then some q.2.1 else none) = [] := by
        rw [List.filterMap_eq_nil_iff]
        intro q hq
        have : ¬ q.2.2 = nm := by
          intro he
          exact hmem ((mem_dedupFS nm _).mpr (List.mem_map.mpr ⟨q, hq, he⟩))
        simp [this]
      rw [hnil]
      have : ¬ 1 < (dedupFS ([] : List String)).length := by
        show ¬ 1 < ([] : List String).length
        simp
      rw [if_neg this]

/-- Witness for C7: reference pairs (C1, Survey), (C2, Survey) and a row
with an empty code: the name Survey maps to codes [C1, C2] with rows
[2, 3], and the empty-code row 4 is recorded. -/
theorem work_code_reference_loading_witness :
    ((wcCore ⟨["Work code", "Work"],
        [⟨[("Work code", some (.vstr "C1")), ("Work", some (.vstr "Survey"))]⟩,
         ⟨[("Work code", some (.vstr "C2")), ("Work", some (.vstr "Survey"))]⟩,
         ⟨[("Work code", some (.vstr "")), ("Work", some (.vstr "X"))]⟩]⟩
      "Work code" "Work").2.name_with_multiple_codes).lookup "Survey" =
      some (["C1", "C2"], [2, 3]) ∧
    (2 + 2) ∈ (wcCore ⟨["Work code", "Work"],
        [⟨[("Work code", some (.vstr "C1")), ("Work", some (.vstr "Survey"))]⟩,
         ⟨[("Work code", some (.vstr "C2")), ("Work", some (.vstr "Survey"))]⟩,
         ⟨[("Work code", some (.vstr "")), ("Work", some (.vstr "X"))]⟩]⟩
      "Work code" "Work").2.missing_code_rows := by
  have h := work_code_reference_loading ⟨["Work code", "Work"],
      [⟨[("Work code", some (.vstr "C1")), ("Work", some (.vstr "Survey"))]⟩,
       ⟨[("Work code", some (.vstr "C2")), ("Work", some (.vstr "Survey"))]⟩,
       ⟨[("Work code", some (.vstr "")), ("Work", some (.vstr "X"))]⟩]⟩
      "Work code" "Work" (by decide) (by decide)
  constructor
  · rw [h.2.2.2.2 "Survey"]
    decide
  · exact h.2.1 (2, ⟨[("Work code", some (.vstr "")), ("Work", some (.vstr "X"))]⟩)
      (by decide) (by decide)

/-- The report's exclude_conditions field always carries the loaded
conditions, in both the short-circuit and the normal branch. -/
theorem validate_exclude_conditions (conds : List (List (String × String)))
    (allowed : List (String × List String)) (validPairs : List (String × String))
    (t : Table) (pct tol : Rat) :
    (validate conds allowed validPairs t pct tol).exclude_conditions = conds := by
  simp only [validate]
  by_cases h : (!(missingColumns (allowed.map (fun pr => pr.1)) t.cols).isEmpty) = true
  · rw [if_pos h]
  · rw [if_neg h]

/-- C8: the run fails with a typed fatal error before any invoice is
processed when the mandatory allowed-values file is missing
(`FileNotFoundError`) or empty/unreadable (`ValueError`), for all other
inputs; an absent exclusion file yields the empty rule list with no
warning; an unreadable exclusion file degrades to the empty rule list
with a warning, and the run still completes with a report whose loaded
exclusion conditions are empty. -/
theorem reference_load_errors :
    (∀ (exclSrc wcSrc billSrc : Source) (pct tol : Rat),
       fullRun exclSrc none wcSrc billSrc pct tol =
         .error (.fileNotFound "Allowed values file not found") ∧
       fullRun exclSrc (some none) wcSrc billSrc pct tol =
         .error (.valueError "Error loading allowed values")) ∧
    loadExcludePatterns none = ([], []) ∧
    loadExcludePatterns (some none) =
      ([], ["Warning: Could not load exclude patterns"]) ∧
    (∀ (ta tb : Table) (pct tol : Rat),
       fullRun (some none) (some (some ta)) none (some (some tb)) pct tol =
         .ok (validate [] (buildAllowed ta) [] tb pct tol) ∧
       fullRun none (some (some ta)) none (some (some tb)) pct tol =
         .ok (validate [] (buildAllowed ta) [] tb pct tol) ∧
       (validate [] (buildAllowed ta) [] tb pct tol).exclude_conditions = []) := by
  refine ⟨fun exclSrc wcSrc billSrc pct tol => ⟨rfl, rfl⟩, rfl, rfl, ?_⟩
  intro ta tb pct tol
  exact ⟨rfl, rfl, validate_exclude_conditions [] (buildAllowed ta) [] tb pct tol⟩

/-- C9 counterexample: on a one-invoice table the loop trace is
[progress, checks-done], not [checks-done, progress] — the progress
callback is invoked at the top of the loop body, before that invoice's
checks run, while the claim requires each invocation to occur after the
checks have completed. -/
theorem progress_callback_before_checks :
    (validate [] [] []
        ⟨["Contract Bill No"], [⟨[("Contract Bill No", some (.vstr "B1"))]⟩]⟩ 15 10).trace =
      [Event.progress 1 1 (.vstr "B1"), Event.done (.vstr "B1")] ∧
    (validate [] [] []
        ⟨["Contract Bill No"], [⟨[("Contract Bill No", some (.vstr "B1"))]⟩]⟩ 15 10).trace ≠
      [Event.done (.vstr "B1"), Event.progress 1 1 (.vstr "B1")] := by
  decide

/-- C9 (amended): whenever the run reaches the per-invoice loop, the
progress callback is invoked exactly once per invoice group with
(1-based index, total group count, invoice id), invoices are visited in
first-seen order with NaN invoice ids dropped, and each invocation
occurs immediately before that invoice's checks run (not after). -/
theorem progress_callback_order (conds : List (List (String × String)))
    (allowed : List (String × List String)) (validPairs : List (String × String))
    (t : Table) (pct tol : Rat)
    (h : missingColumns (allowed.map (fun pr => pr.1)) t.cols = []) :
    (validate conds allowed validPairs t pct tol).trace =
      (dedupFS (t.rows.filterMap (fun r => r.get "Contract Bill No"))).enum.flatMap
        (fun p => [Event.progress (p.1 + 1)
            (dedupFS (t.rows.filterMap (fun r => r.get "Contract Bill No"))).length p.2,
          Event.done p.2]) := by
  simp only [validate]
  rw [if_neg (by rw [h]; simp)]
  rw [foldl_loopStep_trace]
  simp

/-- Witness for C9 at a concrete one-invoice table. -/
theorem progress_callback_order_witness :
    (validate [] [] []
        ⟨["Contract Bill No"], [⟨[("Contract Bill No", some (.vstr "B1"))]⟩]⟩ 15 10).trace =
      (dedupFS ((⟨["Contract Bill No"],
          [⟨[("Contract Bill No", some (.vstr "B1"))]⟩]⟩ : Table).rows.filterMap
            (fun r => r.get "Contract Bill No"))).enum.flatMap
        (fun p => [Event.progress (p.1 + 1)
            (dedupFS ((⟨["Contract Bill No"],
              [⟨[("Contract Bill No", some (.vstr "B1"))]⟩]⟩ : Table).rows.filterMap
                (fun r => r.get "Contract Bill No"))).length p.2,
          Event.done p.2]) :=
  progress_callback_order [] [] []
    ⟨["Contract Bill No"], [⟨[("Contract Bill No", some (.vstr "B1"))]⟩]⟩ 15 10 (by decide)

/-- Concrete invoice group for C10: a non-coordination row whose Cost
cell is the non-numeric text "abc", and a coordination row (Work code
"C") whose Cost cell is the non-numeric text "xx". -/
def c10row1 : Row :=
  ⟨[("Contract Bill No", some (.vstr "B1")), ("Work code", some (.vstr "A")),
    ("Work", some (.vstr "w")), ("Item", some (.vstr "i")), ("Cost", some (.vstr "abc"))]⟩

/-- Second concrete row for C10. -/
def c10row2 : Row :=
  ⟨[("Contract Bill No", some (.vstr "B1")), ("Work code", some (.vstr "C")),
    ("Work", some (.vstr "w")), ("Item", some (.vstr "j")), ("Cost", some (.vstr "xx"))]⟩

/-- Header of the concrete C10 table. -/
def c10cols : List String :=
  ["Contract Bill No", "Work code", "Work", "Item", "Cost"]

/-- The concrete C10 invoice group. -/
def c10group : Group := [(0, c10row1), (1, c10row2)]

/-- Evaluation of the loop body on the concrete C10 group: coordination
passes, the numeric check passes, and Cost never appears in the numeric
violations. -/
theorem c10_eval :
    (processBill c10cols [] [] [] [] 15 10 c10group).coordination_correct = true ∧
    (processBill c10cols [] [] [] [] 15 10 c10group).numeric_values = true ∧
    (processBill c10cols [] [] [] [] 15 10 c10group).numeric_violations.lookup "Cost" = none := by
  refine ⟨?_, by decide, by decide⟩
  show (checkCoordination c10cols [] 15 10
      (c10group.map (fun p => (p.1, coerceRow p.2)))).1 = true
  simp only [checkCoordination]
  rw [if_neg (by decide)]
  simp only [decide_eq_true_eq]
  have hA : (c10group.map (fun p => (p.1, coerceRow p.2))).filter
      (fun p => !(isExcluded c10cols [] p.2) && !(isCoordRow p.2)) =
      [(0, coerceRow c10row1)] := by decide
  have hB : (c10group.map (fun p => (p.1, coerceRow p.2))).filter
      (fun p => isCoordRow p.2) = [(1, coerceRow c10row2)] := by decide
  rw [hA, hB]
  have hc1 : costSum [(0, coerceRow c10row1)] = 0 := by
    simp [costSum, show (coerceRow c10row1).get "Cost" = none from by decide, cellNum]
  have hc2 : costSum [(1, coerceRow c10row2)] = 0 := by
    simp [costSum, show (coerceRow c10row2).get "Cost" = none from by decide, cellNum]
  rw [hc1, hc2]
  norm_num

/-- C10 counterexample: on a group whose Cost cell holds the non-numeric
text "abc", the numeric_values check (run, as in the source, after the
Cost coercion) passes and reports nothing for Cost, while
coordination_correct passes — so the claimed scenario "numeric_values
fails for Cost" never arises. -/
theorem cost_coercion_counterexample :
    (processBill c10cols [] [] [] [] 15 10 c10group).numeric_values = true ∧
    (processBill c10cols [] [] [] [] 15 10 c10group).numeric_violations.lookup "Cost" = none ∧
    (processBill c10cols [] [] [] [] 15 10 c10group).coordination_correct = true ∧
    c10row1.get "Cost" = some (.vstr "abc") ∧
    Cell.blank (some (.vstr "abc")) = false ∧
    Cell.toFloat (some (.vstr "abc")) = none :=
  ⟨c10_eval.2.1, c10_eval.2.2, c10_eval.1, by decide, by decide, by decide⟩

/-- C10 (amended): the Cost column is coerced to numbers before any
per-bill check runs; NaN costs are skipped by the sums, so a non-empty
non-numeric Cost cell contributes 0 to both the base amount and the
actual coordination sum; numeric_values never fails for Cost (the
coercion precedes the check), and coordination_correct can pass on a
group containing a non-empty non-numeric Cost cell. -/
theorem cost_coercion_effects :
    (∀ r : Row, (coerceRow r).get "Cost" = coerceCell (r.get "Cost")) ∧
    (∀ g : Group, costSum (g.map (fun p => (p.1, coerceRow p.2))) =
      (g.map (fun p => ((p.2.get "Cost").toFloat).getD 0)).sum) ∧
    (∀ (cols : List String) (conds : List (List (String × String)))
       (allowed : List (String × List String)) (requiredCols : List String)
       (validPairs : List (String × String)) (pct tol : Rat) (g : Group),
      (processBill cols conds allowed requiredCols validPairs pct tol
        g).numeric_violations.lookup "Cost" = none) ∧
    ((processBill c10cols [] [] [] [] 15 10 c10group).coordination_correct = true ∧
     (processBill c10cols [] [] [] [] 15 10 c10group).numeric_values = true ∧
     c10row1.get "Cost" = some (.vstr "abc") ∧
     Cell.blank (some (.vstr "abc")) = false ∧
     Cell.toFloat (some (.vstr "abc")) = none) := by
  refine ⟨coerceRow_get_cost, ?_, ?_, c10_eval.1, c10_eval.2.1, by decide, by decide, by decide⟩
  · intro g
    show ((g.map (fun p => (p.1, coerceRow p.2))).map
        (fun p => cellNum (p.2.get "Cost"))).sum = _
    rw [List.map_map]
    apply congrArg List.sum
    have hf : ((fun p : Nat × Row => cellNum (p.2.get "Cost")) ∘
        (fun p : Nat × Row => (p.1, coerceRow p.2))) =
        fun p : Nat × Row => ((p.2.get "Cost").toFloat).getD 0 := by
      funext p
      show cellNum ((coerceRow p.2).get "Cost") = _
      rw [coerceRow_get_cost, cellNum_coerceCell]
    rw [hf]
  · intro cols conds allowed requiredCols validPairs pct tol g
    show ((checkNumericValues cols
        (g.map (fun p => (p.1, coerceRow p.2)))).2).lookup "Cost" = none
    simp only [checkNumericValues]
    rw [lookup_filterMap_keys (numericEntry cols (g.map (fun p => (p.1, coerceRow p.2))))
      "Cost" numericCols]
    rw [if_pos (by simp [numericCols])]
    simp only [numericEntry]
    by_cases hc : cols.contains "Cost" = true
    · rw [if_pos hc]
      have hbad : (g.map (fun p => (p.1, coerceRow p.2))).filterMap (fun p =>
          let v := p.2.get "Cost"
          if v.blank then none
          else if (v.toFloat).isSome then none
          else some (p.1 + 2)) = [] := by
        rw [List.filterMap_eq_nil_iff]
        intro p hp
        rcases List.mem_map.mp hp with ⟨q, _, hq⟩
        have hcost : p.2.get "Cost" = coerceCell (q.2.get "Cost") := by
          rw [← hq]
          exact coerceRow_get_cost q.2
        rcases coerceCell_shape (q.2.get "Cost") with hsh | ⟨w, hsh⟩
        · rw [hcost, hsh]
          rfl
        · rw [hcost, hsh]
          cases hb : Cell.blank (some (Val.vnum w)) with
          | true => simp [hb]
          | false => simp [hb, Cell.toFloat, Val.toFloat]
      rw [hbad]
      rfl
    · rw [if_neg hc]

end BillChecker
